import Mathlib

/-!
Verification of the karpenter-core natural-language specification against a
shallow embedding of the repository's Go sources.

Embedding conventions:
- Kubernetes resource quantities (`resource.Quantity`) are embedded as `Int`;
  `Quantity.Cmp` is integer comparison.
- Go maps whose iteration the code performs are embedded as association lists
  (`List (String × _)`); a nil map is distinguished from an empty one with
  `Option` where the code tests `== nil`.
- Go `*T` pointers become `Option T`; `error` results become `Option E` for a
  concrete error type `E` (`none` = nil error).
-/

namespace Karpenter

/-- Embedding of `resource.Quantity`: its `Cmp` is numeric comparison, which
`Int` models directly. -/
abbrev Quantity := Int

/-- Embedding of `v1.ResourceList` (`map[v1.ResourceName]resource.Quantity`)
as an association list. -/
abbrev ResourceList := List (String × Quantity)

/-- Map lookup on the association-list embedding of a Go map: the first
binding of the key, `none` when absent (Go `l[k]` with `ok = false`). -/
def lookupRL (l : ResourceList) (key : String) : Option Quantity :=
  match l with
  | [] => none
  | (k, v) :: rest => if k = key then some v else lookupRL rest key

/-- Embedding of `v1beta1.Limits` (`type Limits v1.ResourceList`); `none`
models a nil map, which `ExceededBy` tests for explicitly. -/
abbrev Limits := Option ResourceList

/-- The data carried by the error `Limits.ExceededBy` formats: the violating
resource name, its usage and its limit. -/
structure LimitErr where
  resource : String
  usage : Quantity
  limit : Quantity
deriving DecidableEq, Repr

/-- The loop body of `Limits.ExceededBy`: walk the usage list; on the first
resource that has a limit and whose usage strictly exceeds it, return the
formatted error. -/
def exceededLoop (l : ResourceList) : ResourceList → Option LimitErr
  | [] => none
  | (name, usage) :: rest =>
    match lookupRL l name with
    | some limit => if limit < usage then some ⟨name, usage, limit⟩ else exceededLoop l rest
    | none => exceededLoop l rest

/-- Embedding of `Limits.ExceededBy` (src/unnamed/part_000:92-104): nil limits
never exceed; otherwise scan the usage map for a resource above its limit. -/
def Limits.ExceededBy (l : Limits) (resources : ResourceList) : Option LimitErr :=
  match l with
  | none => none
  | some lm => exceededLoop lm resources

/-- Lookup through the `Limits` option: `none` when the limits map is nil. -/
def lookupLimit (l : Limits) (key : String) : Option Quantity :=
  match l with
  | none => none
  | some lm => lookupRL lm key

theorem exceededLoop_eq_none_iff (lm : ResourceList) (r : ResourceList) :
    exceededLoop lm r = none ↔
      ∀ p ∈ r, ∀ limit, lookupRL lm p.1 = some limit → p.2 ≤ limit := by
  induction r with
  | nil => simp [exceededLoop]
  | cons hd tl ih =>
    obtain ⟨name, usage⟩ := hd
    cases hlk : lookupRL lm name with
    | none =>
      simp only [exceededLoop, hlk, ih]
      constructor
      · intro h p hp limit hlim
        rcases List.mem_cons.mp hp with rfl | hp
        · have hbad : (none : Option Quantity) = some limit := hlk.symm.trans hlim
          exact absurd hbad (by simp)
        · exact h p hp limit hlim
      · intro h p hp limit hlim
        exact h p (List.mem_cons_of_mem _ hp) limit hlim
    | some limit =>
      by_cases hgt : limit < usage
      · simp only [exceededLoop, hlk, if_pos hgt]
        constructor
        · intro h
          exact absurd h (by simp)
        · intro h
          have h1 : usage ≤ limit := h (name, usage) (List.mem_cons_self _ _) limit hlk
          exact absurd h1 (not_le.mpr hgt)
      · simp only [exceededLoop, hlk, if_neg hgt, ih]
        constructor
        · intro h p hp lim hlim
          rcases List.mem_cons.mp hp with rfl | hp
          · have h2 : some limit = some lim := hlk.symm.trans hlim
            injection h2 with h2
            show usage ≤ lim
            exact h2 ▸ not_lt.mp hgt
          · exact h p hp lim hlim
        · intro h p hp lim hlim
          exact h p (List.mem_cons_of_mem _ hp) lim hlim

theorem exceededLoop_eq_some (lm : ResourceList) (r : ResourceList)
    (e : LimitErr) (h : exceededLoop lm r = some e) :
    (e.resource, e.usage) ∈ r ∧ lookupRL lm e.resource = some e.limit ∧ e.limit < e.usage := by
  induction r with
  | nil => simp [exceededLoop] at h
  | cons hd tl ih =>
    obtain ⟨name, usage⟩ := hd
    cases hlk : lookupRL lm name with
    | none =>
      simp only [exceededLoop, hlk] at h
      obtain ⟨h1, h2, h3⟩ := ih h
      exact ⟨List.mem_cons_of_mem _ h1, h2, h3⟩
    | some limit =>
      by_cases hgt : limit < usage
      · simp only [exceededLoop, hlk, if_pos hgt, Option.some.injEq] at h
        subst h
        exact ⟨List.mem_cons_self _ _, hlk, hgt⟩
      · simp only [exceededLoop, hlk, if_neg hgt] at h
        obtain ⟨h1, h2, h3⟩ := ih h
        exact ⟨List.mem_cons_of_mem _ h1, h2, h3⟩

/-- Claim C3: `Limits.ExceededBy` returns nil for nil limits; otherwise it
returns nil exactly when every resource with an entry in both lists has usage
at most its limit (equality allowed, unlisted resources unconstrained); and
any returned error names a violating resource together with its usage and its
limit, with the usage strictly above the limit. -/
theorem limits_exceededBy_spec (l : Limits) (resources : ResourceList) :
    (l = none → Limits.ExceededBy l resources = none) ∧
    (Limits.ExceededBy l resources = none ↔
      ∀ p ∈ resources, ∀ limit, lookupLimit l p.1 = some limit → p.2 ≤ limit) ∧
    (∀ e, Limits.ExceededBy l resources = some e →
      (e.resource, e.usage) ∈ resources ∧
      lookupLimit l e.resource = some e.limit ∧ e.limit < e.usage) := by
  refine ⟨?_, ?_, ?_⟩
  · rintro rfl
    rfl
  · cases l with
    | none => simp [Limits.ExceededBy, lookupLimit]
    | some lm => simpa [Limits.ExceededBy, lookupLimit] using exceededLoop_eq_none_iff lm resources
  · intro e he
    cases l with
    | none => simp [Limits.ExceededBy] at he
    | some lm =>
      simpa [lookupLimit] using exceededLoop_eq_some lm resources e he

/-- Witness for claim C3: the limits map `{cpu ↦ 4}` is exceeded by usage
`{cpu ↦ 5}`, and the reported error carries the violating triple. -/
theorem limits_exceededBy_spec_witness :
    (Limits.ExceededBy (some [("cpu", 4)]) [("memory", 9), ("cpu", 5)] =
      some ⟨"cpu", 5, 4⟩) ∧
    (("cpu", (5 : Quantity)) ∈ [("memory", (9 : Quantity)), ("cpu", 5)] ∧
      lookupLimit (some [("cpu", 4)]) "cpu" = some 4 ∧ (4 : Quantity) < 5) := by
  constructor
  · rfl
  · exact (limits_exceededBy_spec (some [("cpu", 4)]) [("memory", 9), ("cpu", 5)]).2.2
      ⟨"cpu", 5, 4⟩ (by rfl)

/-! ## NodePool data model (src/unnamed/part_000) -/

/-- Embedding of `NillableDuration`: a duration that may be nil (the literal
"Never" parses to a nil inner duration). Durations are nanosecond counts,
embedded as `Int`. -/
structure NillableDuration where
  duration : Option Int
deriving DecidableEq

def ConsolidationPolicyWhenEmpty : String := "WhenEmpty"

def ConsolidationPolicyWhenUnderutilized : String := "WhenUnderutilized"

/-- Embedding of `v1beta1.Disruption` (src/unnamed/part_000:56-81).
`consolidateAfter` is a `*NillableDuration`, hence the outer `Option`;
`consolidationPolicy` is a string type in Go, embedded as `String`. -/
structure Disruption where
  consolidateAfter : Option NillableDuration
  consolidationPolicy : String
  expireAfter : NillableDuration
deriving DecidableEq

/-- Embedding of a `NodeSelectorRequirement` as used in the template's
`Spec.Requirements` list: only the key matters to the validated claims, but
the operator and values are carried for faithfulness. -/
structure Requirement where
  key : String
  operator : String
  values : List String
deriving DecidableEq

/-- Embedding of the template spec's `v1.ResourceRequirements`. -/
structure ResourceRequirements where
  requests : ResourceList
  limits : ResourceList
deriving DecidableEq

/-- Embedding of the fields of `NodeClaimSpec` the validated claims read:
the requirements list and the resource requirements. -/
structure NodeClaimSpec where
  requirements : List Requirement
  resources : ResourceRequirements
deriving DecidableEq

/-- Embedding of the template's `ObjectMeta` (src/unnamed/part_000:112-126):
labels and annotations, as association lists. -/
structure TemplateMeta where
  labels : List (String × String)
  annotations : List (String × String)
deriving DecidableEq

/-- Embedding of `NodeClaimTemplate` (src/unnamed/part_000:106-110). -/
structure NodeClaimTemplate where
  metadata : TemplateMeta
  spec : NodeClaimSpec
deriving DecidableEq

/-- Embedding of `NodePoolSpec` (src/unnamed/part_000:32-54); `weight` is a
`*int32`, embedded as `Option Int`. -/
structure NodePoolSpec where
  template : NodeClaimTemplate
  disruption : Disruption
  limits : Limits
  weight : Option Int
deriving DecidableEq

/-- Embedding of `NodePool` (src/unnamed/part_000:134-140): the object name
from `metav1.ObjectMeta` plus the spec. -/
structure NodePool where
  name : String
  spec : NodePoolSpec
deriving DecidableEq

/-! ## Claim C4: NodePoolList.OrderByWeight -/

/-- Embedding of knative's `ptr.Int32Value`: dereference, nil becomes 0. -/
def int32Value : Option Int → Int
  | none => 0
  | some v => v

/-- The comparator `OrderByWeight` passes to `sort.Slice`
(src/unnamed/part_000:161-163): `a` sorts before `b` when `a`'s weight is
strictly greater. Names are not consulted. -/
def nodePoolLess (a b : NodePool) : Bool :=
  decide (int32Value b.spec.weight < int32Value a.spec.weight)

/-- One insertion step of insertion sort over the `nodePoolLess` comparator:
the element is placed before the first list entry it compares less-than,
exactly where Go's `insertionSort_func` leaves it. -/
def insertByLess (x : NodePool) : List NodePool → List NodePool
  | [] => [x]
  | y :: ys => if nodePoolLess x y then x :: y :: ys else y :: insertByLess x ys

/-- Embedding of `NodePoolList.OrderByWeight` (src/unnamed/part_000:160-164).
Go's `sort.Slice` runs pdqsort, which sorts any slice of length ≤ 12 by
exactly the insertion sort embedded here (stable for a strict comparator);
for longer slices `sort.Slice` guarantees only sortedness w.r.t. the
comparator, which is the property proved below and which this embedding also
has. -/
def OrderByWeight (items : List NodePool) : List NodePool :=
  items.foldl (fun acc x => insertByLess x acc) []

/-- The ordering the specification claims `OrderByWeight` establishes:
descending weight, ties broken by ascending object name.  Written from the
spec's words, to be compared with the embedding of the code. -/
def specClaimedOrder (a b : NodePool) : Prop :=
  int32Value b.spec.weight < int32Value a.spec.weight ∨
    (int32Value a.spec.weight = int32Value b.spec.weight ∧ a.name < b.name)

instance (a b : NodePool) : Decidable (specClaimedOrder a b) := by
  unfold specClaimedOrder
  infer_instance

def emptyTemplate : NodeClaimTemplate := ⟨⟨[], []⟩, ⟨[], ⟨[], []⟩⟩⟩

def defaultDisruptionPolicy : Disruption := ⟨none, "WhenUnderutilized", ⟨none⟩⟩

/-- A weight-1 pool named "a". -/
def paPool : NodePool := ⟨"a", ⟨emptyTemplate, defaultDisruptionPolicy, none, some 1⟩⟩

/-- A weight-1 pool named "b". -/
def pbPool : NodePool := ⟨"b", ⟨emptyTemplate, defaultDisruptionPolicy, none, some 1⟩⟩

theorem insertByLess_perm (x : NodePool) (l : List NodePool) :
    List.Perm (insertByLess x l) (x :: l) := by
  induction l with
  | nil => exact List.Perm.refl _
  | cons y ys ih =>
    by_cases h : nodePoolLess x y
    · simp only [insertByLess, if_pos h]
      exact List.Perm.refl _
    · simp only [insertByLess, if_neg h]
      exact (ih.cons y).trans (List.Perm.swap x y ys)

/-- The sortedness relation `sort.Slice`'s contract guarantees for the
`OrderByWeight` comparator: no later element has strictly larger weight. -/
def weightGE (a b : NodePool) : Prop :=
  int32Value b.spec.weight ≤ int32Value a.spec.weight

theorem insertByLess_sorted (x : NodePool) (l : List NodePool)
    (h : List.Pairwise weightGE l) :
    List.Pairwise weightGE (insertByLess x l) := by
  induction l with
  | nil => simp [insertByLess, List.pairwise_cons]
  | cons y ys ih =>
    obtain ⟨hy, hys⟩ := List.pairwise_cons.mp h
    by_cases hxy : nodePoolLess x y
    · simp only [insertByLess, if_pos hxy]
      have hlt : int32Value y.spec.weight < int32Value x.spec.weight := by
        simp only [nodePoolLess, decide_eq_true_eq] at hxy
        exact hxy
      refine List.Pairwise.cons ?_ h
      intro z hz
      rcases List.mem_cons.mp hz with rfl | hz
      · exact le_of_lt hlt
      · exact le_trans (hy z hz) (le_of_lt hlt)
    · simp only [insertByLess, if_neg hxy]
      have hle : int32Value x.spec.weight ≤ int32Value y.spec.weight := by
        simp only [nodePoolLess, decide_eq_true_eq] at hxy
        exact not_lt.mp hxy
      refine List.Pairwise.cons ?_ (ih hys)
      intro z hz
      have hz' : z ∈ x :: ys := (insertByLess_perm x ys).mem_iff.mp hz
      rcases List.mem_cons.mp hz' with rfl | hz'
      · exact hle
      · exact hy z hz'

theorem foldl_insert_perm (l : List NodePool) :
    ∀ acc : List NodePool,
      List.Perm (l.foldl (fun acc x => insertByLess x acc) acc) (acc ++ l) := by
  induction l with
  | nil => intro acc; simp
  | cons x xs ih =>
    intro acc
    have step : List.Perm (insertByLess x acc ++ xs) (acc ++ x :: xs) :=
      ((insertByLess_perm x acc).append_right xs).trans List.perm_middle.symm
    exact ((ih (insertByLess x acc)).trans step)

theorem foldl_insert_sorted (l : List NodePool) :
    ∀ acc : List NodePool, List.Pairwise weightGE acc →
      List.Pairwise weightGE (l.foldl (fun acc x => insertByLess x acc) acc) := by
  induction l with
  | nil => intro acc h; exact h
  | cons x xs ih =>
    intro acc h
    exact ih _ (insertByLess_sorted x acc h)

/-- Counterexample for claim C4: two pools of equal weight arrive with names
in descending order; `OrderByWeight` leaves them untouched (its comparator
never reads names and Go's insertion sort is stable), so the output is not in
ascending-name order among the tie: the claimed tie-break does not happen. -/
theorem orderByWeight_tiebreak_counterexample :
    OrderByWeight [pbPool, paPool] = [pbPool, paPool] ∧
    int32Value pbPool.spec.weight = int32Value paPool.spec.weight ∧
    paPool.name = "a" ∧ pbPool.name = "b" ∧
    ¬ List.Pairwise specClaimedOrder (OrderByWeight [pbPool, paPool]) := by
  refine ⟨rfl, rfl, rfl, rfl, ?_⟩
  intro h
  have h1 : specClaimedOrder pbPool paPool := by
    have h2 : OrderByWeight [pbPool, paPool] = [pbPool, paPool] := rfl
    rw [h2] at h
    exact (List.pairwise_cons.mp h).1 paPool (List.mem_cons_self _ _)
  rcases h1 with h1 | ⟨_, h1⟩
  · exact absurd h1 (by decide)
  · have h3 : ¬ ("b" : String) < "a" := by
      rw [String.lt_iff_toList_lt]
      decide
    exact h3 h1

/-- Claim C4 (amended): `OrderByWeight` permutes the list into descending
order of `Spec.Weight` with a nil weight read as 0; no name tie-break is
applied (the comparator consults only weights). -/
theorem orderByWeight_sorted_perm (items : List NodePool) :
    List.Perm (OrderByWeight items) items ∧
    List.Pairwise weightGE (OrderByWeight items) := by
  constructor
  · simpa using foldl_insert_perm items []
  · exact foldl_insert_sorted items [] List.Pairwise.nil

/-! ## Claim C5: Disruption.validate (src/pkg/apis/v1beta1/nodepool_validation.go:108-122) -/

/-- The four errors `Disruption.validate` can return, in source order. -/
inductive DisruptionErrKind where
  | negativeExpire
  | negativeConsolidate
  | consolidateWhenUnderutilized
  | consolidateRequiredWhenEmpty
deriving DecidableEq

/-- Whether an optional duration pointer is non-nil and negative, the test
`x.Duration != nil && *x.Duration < 0` performs. -/
def hasNegDuration : Option Int → Bool
  | some v => decide (v < 0)
  | none => false

/-- The dereference chain `in.ConsolidateAfter != nil &&
in.ConsolidateAfter.Duration != nil` collapsed to one option: the concrete
consolidate-after duration, if both pointers are set. -/
def caDuration (d : Disruption) : Option Int :=
  match d.consolidateAfter with
  | none => none
  | some nd => nd.duration

/-- Embedding of `Disruption.validate`
(src/pkg/apis/v1beta1/nodepool_validation.go:108-122): the four early-return
checks in source order. -/
def Disruption.validate (d : Disruption) : Option DisruptionErrKind :=
  if hasNegDuration d.expireAfter.duration then some .negativeExpire
  else if hasNegDuration (caDuration d) then some .negativeConsolidate
  else if (caDuration d).isSome
      && decide (d.consolidationPolicy = ConsolidationPolicyWhenUnderutilized) then
    some .consolidateWhenUnderutilized
  else if d.consolidateAfter.isNone
      && decide (d.consolidationPolicy = ConsolidationPolicyWhenEmpty) then
    some .consolidateRequiredWhenEmpty
  else none

/-- The input refuting claim C5: `consolidateAfter` is set to the literal
"Never" (a non-nil `NillableDuration` with nil inner duration) while the
policy is WhenUnderutilized. -/
def neverWhenUnderutilized : Disruption :=
  ⟨some ⟨none⟩, "WhenUnderutilized", ⟨none⟩⟩

/-- Counterexample for claim C5: with `consolidateAfter: "Never"` and
`consolidationPolicy: WhenUnderutilized`, `consolidateAfter` is set while the
policy is not WhenEmpty, yet `validate` accepts (the code only rejects a
concrete, non-"Never" duration combined with WhenUnderutilized). -/
theorem disruption_validate_counterexample :
    Disruption.validate neverWhenUnderutilized = none ∧
    neverWhenUnderutilized.consolidateAfter ≠ none ∧
    neverWhenUnderutilized.consolidationPolicy ≠ ConsolidationPolicyWhenEmpty := by
  refine ⟨rfl, ?_, ?_⟩
  · intro h
    simp [neverWhenUnderutilized] at h
  · intro h
    simp [neverWhenUnderutilized, ConsolidationPolicyWhenEmpty] at h

theorem validate_ne_none_iff_conds (d : Disruption) :
    Disruption.validate d ≠ none ↔
      (hasNegDuration d.expireAfter.duration = true ∨
       hasNegDuration (caDuration d) = true ∨
       ((caDuration d).isSome = true ∧
         d.consolidationPolicy = ConsolidationPolicyWhenUnderutilized) ∨
       (d.consolidateAfter = none ∧
         d.consolidationPolicy = ConsolidationPolicyWhenEmpty)) := by
  by_cases h1 : hasNegDuration d.expireAfter.duration = true
  · simp [Disruption.validate, h1]
  · by_cases h2 : hasNegDuration (caDuration d) = true
    · simp [Disruption.validate, h1, h2]
    · by_cases h3 : (caDuration d).isSome = true ∧
          d.consolidationPolicy = ConsolidationPolicyWhenUnderutilized
      · simp [Disruption.validate, h1, h2, h3.1, h3.2]
      · by_cases h4 : d.consolidateAfter = none ∧
            d.consolidationPolicy = ConsolidationPolicyWhenEmpty
        · have hn : d.consolidateAfter.isNone = true := by
            rw [h4.1]
            rfl
          have hne : ConsolidationPolicyWhenEmpty ≠ ConsolidationPolicyWhenUnderutilized := by
            decide
          simp [Disruption.validate, h1, h2, h3, h4.1, h4.2, hn, hne,
            Option.isNone_iff_eq_none]
        · have hcases : ¬ ((caDuration d).isSome = true
              && decide (d.consolidationPolicy = ConsolidationPolicyWhenUnderutilized)) = true := by
            simp only [Bool.and_eq_true, decide_eq_true_eq]
            exact h3
          have hcases4 : ¬ (d.consolidateAfter.isNone
              && decide (d.consolidationPolicy = ConsolidationPolicyWhenEmpty)) = true := by
            simp only [Bool.and_eq_true, decide_eq_true_eq,
              Option.isNone_iff_eq_none]
            exact h4
          simp [Disruption.validate, h1, h2, hcases, hcases4, h3, h4]

theorem hasNegDuration_iff (o : Option Int) :
    hasNegDuration o = true ↔ ∃ v, o = some v ∧ v < 0 := by
  cases o with
  | none => simp [hasNegDuration]
  | some v => simp [hasNegDuration]

theorem caDuration_isSome_iff (d : Disruption) :
    (caDuration d).isSome = true ↔
      ∃ nd v, d.consolidateAfter = some nd ∧ nd.duration = some v := by
  cases hca : d.consolidateAfter with
  | none => simp [caDuration, hca]
  | some nd =>
    cases hnd : nd.duration with
    | none => simp [caDuration, hca, hnd]
    | some v =>
      simp only [caDuration, hca, hnd, Option.isSome_some, true_iff]
      exact ⟨nd, v, rfl, hnd⟩

theorem caDuration_neg_iff (d : Disruption) :
    hasNegDuration (caDuration d) = true ↔
      ∃ nd, d.consolidateAfter = some nd ∧ ∃ v, nd.duration = some v ∧ v < 0 := by
  rw [hasNegDuration_iff]
  cases hca : d.consolidateAfter with
  | none => simp [caDuration, hca]
  | some nd => simp [caDuration, hca]

/-- Claim C5 (amended): `validate` errors exactly when ExpireAfter carries a
negative duration, or ConsolidateAfter carries a negative duration, or
ConsolidateAfter carries a concrete (non-"Never") duration while the policy
is WhenUnderutilized, or ConsolidateAfter is nil while the policy is
WhenEmpty.  A "Never" ConsolidateAfter combined with a policy other than
WhenEmpty is accepted. -/
theorem disruption_validate_spec (d : Disruption) :
    Disruption.validate d ≠ none ↔
      ((∃ v, d.expireAfter.duration = some v ∧ v < 0) ∨
       (∃ nd, d.consolidateAfter = some nd ∧ ∃ v, nd.duration = some v ∧ v < 0) ∨
       ((∃ nd v, d.consolidateAfter = some nd ∧ nd.duration = some v) ∧
         d.consolidationPolicy = ConsolidationPolicyWhenUnderutilized) ∨
       (d.consolidateAfter = none ∧
         d.consolidationPolicy = ConsolidationPolicyWhenEmpty)) := by
  rw [validate_ne_none_iff_conds, hasNegDuration_iff, caDuration_neg_iff,
    caDuration_isSome_iff]

/-! ## Claim C6: NodePool.Hash (src/unnamed/part_000:142-148) -/

/-- A deterministic serialization of a key-value association list, used by the
model of `hashstructure.Hash`. -/
def encodePairs (l : List (String × String)) : String :=
  l.foldl (fun acc p => acc ++ "|" ++ p.1 ++ "=" ++ p.2) ""

/-- Serialization of one requirement for the template hash model. -/
def encodeReq (r : Requirement) : String :=
  r.key ++ "#" ++ r.operator ++ "#" ++ String.intercalate "," r.values

/-- Serialization of a resource list for the template hash model. -/
def encodeRL (l : ResourceList) : String :=
  l.foldl (fun acc p => acc ++ "|" ++ p.1 ++ ":" ++ toString p.2) ""

/-- A deterministic serialization of every field of `Spec.Template`, the sole
input `NodePool.Hash` feeds to `hashstructure.Hash`. -/
def templateEncode (t : NodeClaimTemplate) : String :=
  "labels:" ++ encodePairs t.metadata.labels
    ++ ";ann:" ++ encodePairs t.metadata.annotations
    ++ ";req:" ++ String.intercalate ";" (t.spec.requirements.map encodeReq)
    ++ ";requests:" ++ encodeRL t.spec.resources.requests
    ++ ";lim:" ++ encodeRL t.spec.resources.limits

/-- A 64-bit string hash, the model of `hashstructure.Hash` FormatV2's FNV
output: a deterministic pure function of its input. -/
def hashString (s : String) : Nat :=
  s.foldl (fun h c => (h * 131 + c.toNat) % (2 ^ 64)) 2166136261

/-- Embedding of `NodePool.Hash` (src/unnamed/part_000:142-148): the decimal
print of a deterministic hash computed from `in.Spec.Template` and nothing
else.  `hashstructure.Hash` with options SlicesAsSets/IgnoreZeroValue/ZeroNil
is modelled by a structural hash of the template's serialization; the options
change which distinct templates collide, not which fields are read, and the
claim concerns only the latter. -/
def NodePool.Hash (p : NodePool) : String :=
  toString (hashString (templateEncode p.spec.template))

/-- Claim C6: the hash is a function of `Spec.Template` alone — two pools
with equal templates hash identically whatever their disruption policy,
limits, weight, name or status. -/
theorem nodePool_hash_template_only (p q : NodePool)
    (h : p.spec.template = q.spec.template) : NodePool.Hash p = NodePool.Hash q := by
  unfold NodePool.Hash
  rw [h]

/-- Two pools sharing a template but differing in name, weight, limits and
disruption policy. -/
def poolHashA : NodePool :=
  ⟨"pool-a", ⟨emptyTemplate, ⟨none, "WhenUnderutilized", ⟨none⟩⟩, none, some 5⟩⟩

def poolHashB : NodePool :=
  ⟨"pool-b", ⟨emptyTemplate, ⟨some ⟨some 30⟩, "WhenEmpty", ⟨some 720⟩⟩,
    some [("cpu", 100)], none⟩⟩

/-- Witness for claim C6: `poolHashA` and `poolHashB` differ in name, weight,
limits and disruption policy yet hash identically, their templates being
equal. -/
theorem nodePool_hash_template_only_witness :
    NodePool.Hash poolHashA = NodePool.Hash poolHashB ∧
    poolHashA.name ≠ poolHashB.name ∧
    poolHashA.spec.weight ≠ poolHashB.spec.weight ∧
    poolHashA.spec.limits ≠ poolHashB.spec.limits ∧
    poolHashA.spec.disruption ≠ poolHashB.spec.disruption := by
  refine ⟨nodePool_hash_template_only poolHashA poolHashB rfl, ?_, ?_, ?_, ?_⟩
  · decide
  · decide
  · decide
  · decide

/-! ## Claim C8: template nodepool-key validation
(src/pkg/apis/v1beta1/nodepool_validation.go:81-106)

The label checks call `validation.IsQualifiedName` and
`validation.IsValidLabelValue` from k8s.io/apimachinery; those library
functions are embedded below at the character level so they evaluate inside
the kernel.  Go's byte lengths are computed as UTF-8 lengths of the char
list, which agree exactly. -/

/-- Modelled from the spec: the nodepool label key (`v1beta1.NodePoolLabelKey`,
`karpenter.sh/nodepool`), declared in the repository's labels file, which is
not under src/; the spec calls it "the nodepool key itself". -/
def NodePoolLabelKey : String := "karpenter.sh/nodepool"

/-- Split a character list on a separator, preserving empty parts, as Go's
`strings.Split` does. -/
def splitChars (sep : Char) : List Char → List (List Char)
  | [] => [[]]
  | c :: cs =>
    match splitChars sep cs with
    | [] => [[]]
    | p :: ps => if c = sep then [] :: p :: ps else (c :: p) :: ps

/-- UTF-8 byte length of a character list, Go's `len` on the string. -/
def utf8Len (l : List Char) : Nat :=
  l.foldl (fun n c => n + c.utf8Size) 0

def isAlnum (c : Char) : Bool :=
  (('a' ≤ c) && (c ≤ 'z')) || (('A' ≤ c) && (c ≤ 'Z')) || (('0' ≤ c) && (c ≤ '9'))

def isQualChar (c : Char) : Bool :=
  isAlnum c || c = '-' || c = '_' || c = '.'

/-- Matcher for the tail of apimachinery's qualified-name pattern: middle
characters from `[-A-Za-z0-9_.]`, final character alphanumeric; the empty
tail stands for a one-character name. -/
def qualNameTail : List Char → Bool
  | [] => true
  | [c] => isAlnum c
  | c :: cs => isQualChar c && qualNameTail cs

/-- Matcher for apimachinery's `qualifiedNameFmt`
regex `[A-Za-z0-9]([-A-Za-z0-9_.]*[A-Za-z0-9])?`, anchored. -/
def qualNameMatch : List Char → Bool
  | [] => false
  | c :: cs => isAlnum c && qualNameTail cs

def isLowerAlnum (c : Char) : Bool :=
  (('a' ≤ c) && (c ≤ 'z')) || (('0' ≤ c) && (c ≤ '9'))

/-- Matcher for the tail of the DNS-1123 label pattern. -/
def dnsLabelTail : List Char → Bool
  | [] => true
  | [c] => isLowerAlnum c
  | c :: cs => (isLowerAlnum c || c = '-') && dnsLabelTail cs

/-- Matcher for `dns1123LabelFmt` regex `[a-z0-9]([-a-z0-9]*[a-z0-9])?`. -/
def dnsLabelMatch : List Char → Bool
  | [] => false
  | c :: cs => isLowerAlnum c && dnsLabelTail cs

/-- Matcher for `dns1123SubdomainFmt`: dot-separated DNS-1123 labels. -/
def dnsSubdomainMatch (l : List Char) : Bool :=
  (splitChars '.' l).all dnsLabelMatch

/-- Embedding of apimachinery's `IsDNS1123Subdomain`: a length bound of 253
bytes and the subdomain regex, errors accumulated in source order. -/
def IsDNS1123Subdomain (value : List Char) : List String :=
  (if utf8Len value > 253 then ["must be no more than 253 characters"] else [])
    ++ (if dnsSubdomainMatch value then []
        else ["a lowercase RFC 1123 subdomain must consist of lower case alphanumeric characters"])

/-- The qualified-name checks shared by apimachinery's `IsQualifiedName`
cases 1 and 2: the name part is non-empty, at most 63 bytes, and matches the
qualified-name regex. -/
def qualNameErrs (name : List Char) : List String :=
  (if name.length = 0 then ["name part must be non-empty"]
   else if utf8Len name > 63 then ["name part must be no more than 63 characters"]
   else [])
    ++ (if qualNameMatch name then []
        else ["name part must consist of alphanumeric characters"])

/-- Embedding of apimachinery's `IsQualifiedName`: split on the slash; one
part is a bare name, two parts are a DNS-subdomain prefix and a name, more
parts fail outright. -/
def IsQualifiedName (value : String) : List String :=
  match splitChars '/' value.toList with
  | [name] => qualNameErrs name
  | [pfx, name] =>
    (if pfx.length = 0 then ["prefix part must be non-empty"]
     else (IsDNS1123Subdomain pfx).map (fun m => "prefix part " ++ m))
      ++ qualNameErrs name
  | _ => ["a qualified name must consist of alphanumeric characters with an optional DNS subdomain and slash"]

/-- Embedding of apimachinery's `IsValidLabelValue`: at most 63 bytes and the
empty-or-qualified-name regex. -/
def IsValidLabelValue (value : String) : List String :=
  (if utf8Len value.toList > 63 then ["must be no more than 63 characters"] else [])
    ++ (if value.toList.isEmpty || qualNameMatch value.toList then []
        else ["a valid label must be an empty string or consist of alphanumeric characters"])

/-- Modelled from the spec: `IsRestrictedLabel` from the repository's labels
file, which is not under src/ — "restricted label keys (including the
nodepool key itself) cannot appear in templates".  Well-known keys are
allowed; any other key whose domain is, or is a subdomain of, a restricted
domain is rejected. -/
def WellKnownLabels : List String :=
  [NodePoolLabelKey, "kubernetes.io/arch", "kubernetes.io/os",
   "node.kubernetes.io/instance-type", "topology.kubernetes.io/zone",
   "topology.kubernetes.io/region", "karpenter.sh/capacity-type"]

/-- Modelled from the spec: the restricted label domains the repository's
labels file declares. -/
def RestrictedLabelDomains : List String := ["kubernetes.io", "k8s.io", "karpenter.sh"]

/-- Suffix test on strings via reversed character lists (Go's
`strings.HasSuffix`), written to evaluate inside the kernel. -/
def strHasSuffix (s suffix : String) : Bool :=
  List.isPrefixOf suffix.toList.reverse s.toList.reverse

/-- The domain of a label key: everything before the slash, "" when there is
no slash. -/
def labelDomain (key : String) : String :=
  match splitChars '/' key.toList with
  | [d, _] => String.mk d
  | _ => ""

/-- Modelled from the spec: `IsRestrictedLabel` — nil for a well-known key,
an error when the key's domain falls under a restricted domain. -/
def IsRestrictedLabel (key : String) : Option String :=
  if key ∈ WellKnownLabels then none
  else if RestrictedLabelDomains.any
      (fun d => labelDomain key = d || strHasSuffix (labelDomain key) ("." ++ d)) then
    some ("label " ++ key ++ " is restricted; specify a well known label or a custom label without a restricted domain")
  else none

/-- The errors `validateLabels` accumulates for one label pair, in source
order (src/pkg/apis/v1beta1/nodepool_validation.go:82-95): the nodepool-key
check, the qualified-name check on the key, the label-value check on the
value, the restricted-label check. -/
def labelErrs (key value : String) : List String :=
  (if key = NodePoolLabelKey then ["invalid key name " ++ key ++ " (labels): restricted"] else [])
    ++ (IsQualifiedName key).map (fun m => "invalid key name " ++ key ++ " (labels): " ++ m)
    ++ (IsValidLabelValue value).map (fun m => "invalid value " ++ value ++ " (labels): " ++ m)
    ++ (match IsRestrictedLabel key with
        | some m => ["invalid key name " ++ key ++ " (labels): " ++ m]
        | none => [])

/-- Embedding of `NodeClaimTemplate.validateLabels`
(src/pkg/apis/v1beta1/nodepool_validation.go:81-97): the accumulated errors
over every label of the template.  Go iterates the map in random order; the
claims depend only on whether any error exists, which order does not
affect. -/
def validateLabels (t : NodeClaimTemplate) : List String :=
  (t.metadata.labels.map (fun p => labelErrs p.1 p.2)).flatten

/-- The indexed loop of `validateRequirementsNodePoolKeyDoesNotExist`. -/
def reqKeyErrs : Nat → List Requirement → List String
  | _, [] => []
  | i, r :: rest =>
    (if r.key = NodePoolLabelKey then
      ["invalid value " ++ r.key ++ " is restricted (requirements[" ++ toString i ++ "])"]
     else [])
      ++ reqKeyErrs (i + 1) rest

/-- Embedding of `NodeClaimTemplate.validateRequirementsNodePoolKeyDoesNotExist`
(src/pkg/apis/v1beta1/nodepool_validation.go:99-106). -/
def validateRequirementsNodePoolKeyDoesNotExist (t : NodeClaimTemplate) : List String :=
  reqKeyErrs 0 t.spec.requirements

theorem labelErrs_nodePoolKey_ne_nil (v : String) :
    labelErrs NodePoolLabelKey v ≠ [] := by
  simp only [labelErrs, if_pos rfl]
  exact List.cons_ne_nil _ _

theorem reqKeyErrs_ne_nil (i : Nat) (rs : List Requirement)
    (h : ∃ r ∈ rs, r.key = NodePoolLabelKey) : reqKeyErrs i rs ≠ [] := by
  induction rs generalizing i with
  | nil => obtain ⟨r, hr, _⟩ := h; exact absurd hr (List.not_mem_nil r)
  | cons r rest ih =>
    obtain ⟨r0, hr0, hk⟩ := h
    rcases List.mem_cons.mp hr0 with rfl | hr0
    · simp only [reqKeyErrs, if_pos hk]
      exact List.cons_ne_nil _ _
    · simp only [reqKeyErrs]
      intro hnil
      rcases List.append_eq_nil.mp hnil with ⟨_, h2⟩
      exact ih (i + 1) ⟨r0, hr0, hk⟩ h2

theorem reqKeyErrs_eq_nil (i : Nat) (rs : List Requirement)
    (h : ∀ r ∈ rs, r.key ≠ NodePoolLabelKey) : reqKeyErrs i rs = [] := by
  induction rs generalizing i with
  | nil => rfl
  | cons r rest ih =>
    simp only [reqKeyErrs, if_neg (h r (List.mem_cons_self _ _))]
    exact ih (i + 1) (fun r' hr' => h r' (List.mem_cons_of_mem _ hr'))

theorem labelErrs_eq_nil (k v : String)
    (hk : k ≠ NodePoolLabelKey) (hq : IsQualifiedName k = [])
    (hv : IsValidLabelValue v = []) (hr : IsRestrictedLabel k = none) :
    labelErrs k v = [] := by
  simp [labelErrs, hk, hq, hv, hr]

/-- Claim C8 (amended): a label bearing the nodepool key makes
`validateLabels` fail, a requirement bearing it makes
`validateRequirementsNodePoolKeyDoesNotExist` fail; with no nodepool key the
requirements check passes, and the labels check passes provided every label
also has a well-formed, unrestricted key and a well-formed value (the labels
check rejects such labels regardless of the nodepool key). -/
theorem nodePoolKey_template_checks (t : NodeClaimTemplate) :
    ((∃ p ∈ t.metadata.labels, p.1 = NodePoolLabelKey) → validateLabels t ≠ []) ∧
    ((∃ r ∈ t.spec.requirements, r.key = NodePoolLabelKey) →
      validateRequirementsNodePoolKeyDoesNotExist t ≠ []) ∧
    ((∀ r ∈ t.spec.requirements, r.key ≠ NodePoolLabelKey) →
      validateRequirementsNodePoolKeyDoesNotExist t = []) ∧
    ((∀ p ∈ t.metadata.labels, p.1 ≠ NodePoolLabelKey ∧ IsQualifiedName p.1 = [] ∧
        IsValidLabelValue p.2 = [] ∧ IsRestrictedLabel p.1 = none) →
      validateLabels t = []) := by
  refine ⟨?_, ?_, ?_, ?_⟩
  · rintro ⟨p, hp, hk⟩ hnil
    have hmem : labelErrs p.1 p.2 ∈ t.metadata.labels.map (fun p => labelErrs p.1 p.2) :=
      List.mem_map_of_mem _ hp
    have : labelErrs p.1 p.2 = [] := by
      have hall := List.flatten_eq_nil_iff.mp hnil
      exact hall _ hmem
    rw [hk] at this
    exact labelErrs_nodePoolKey_ne_nil p.2 this
  · intro h
    exact reqKeyErrs_ne_nil 0 t.spec.requirements h
  · intro h
    exact reqKeyErrs_eq_nil 0 t.spec.requirements h
  · intro h
    apply List.flatten_eq_nil_iff.mpr
    intro l hl
    obtain ⟨p, hp, rfl⟩ := List.mem_map.mp hl
    obtain ⟨h1, h2, h3, h4⟩ := h p hp
    exact labelErrs_eq_nil p.1 p.2 h1 h2 h3 h4

/-- A template whose one label key is malformed but is not the nodepool key,
and which has no requirements. -/
def tBadLabel : NodeClaimTemplate :=
  ⟨⟨[("Bad Label!", "ok")], []⟩, ⟨[], ⟨[], []⟩⟩⟩

/-- Counterexample for claim C8: a template using the nodepool key in neither
labels nor requirements that still fails `validateLabels` — its label key is
not a qualified name — so "a template using neither passes those two checks"
is false on the code. -/
theorem nodePoolKey_checks_counterexample :
    (∀ p ∈ tBadLabel.metadata.labels, p.1 ≠ NodePoolLabelKey) ∧
    tBadLabel.spec.requirements = [] ∧
    validateRequirementsNodePoolKeyDoesNotExist tBadLabel = [] ∧
    validateLabels tBadLabel ≠ [] := by
  refine ⟨?_, rfl, rfl, ?_⟩
  · intro p hp
    rcases List.mem_cons.mp hp with rfl | hp
    · decide
    · exact absurd hp (List.not_mem_nil p)
  · decide

/-! ## Claim C9: HealthProbe (src/pkg/webhooks/webhooks.go:150-171) -/

/-- The outcome of the HTTP GET the health checker performs against the
webhook port: a connection-level failure, or a status code. -/
inductive HTTPResult where
  | connError (msg : String)
  | ok (statusCode : Nat)
deriving DecidableEq

/-- Embedding of the checker closure `HealthProbe` returns
(src/pkg/webhooks/webhooks.go:153-170): a connection error is returned as-is;
a response with status ≥ 500 or = 404 fails the probe; anything else is
healthy. -/
def healthCheck : HTTPResult → Option String
  | .connError msg => some msg
  | .ok code =>
    if 500 ≤ code ∨ code = 404 then
      some ("webhook probe failed with status code " ++ toString code)
    else none

/-- Claim C9: the probe reports failure exactly when the GET fails at the
connection level or returns a status ≥ 500 or = 404; every other status
(other 4xx included) is healthy. -/
theorem healthProbe_spec (r : HTTPResult) :
    healthCheck r ≠ none ↔
      ((∃ msg, r = .connError msg) ∨
        (∃ c, r = .ok c ∧ (500 ≤ c ∨ c = 404))) := by
  cases r with
  | connError msg => simp [healthCheck]
  | ok c =>
    by_cases h : 500 ≤ c ∨ c = 404
    · simp [healthCheck, h]
    · simp [healthCheck, h]

/-! ## Claim C10: pod metrics controller
(src/pkg/controllers/metrics/pod/controller.go:121-144) -/

/-- Embedding of the discriminating content of a k8s API error: whether
`errors.IsNotFound` holds of it. -/
structure GetErr where
  notFound : Bool
deriving DecidableEq

/-- Embedding of `metav1.OwnerReference`, the fields `makeLabels` reads. -/
structure OwnerRef where
  apiVersion : String
  kind : String
  name : String
deriving DecidableEq

/-- Embedding of a pod status condition: its type and transition time. -/
structure PodCond where
  condType : String
  lastTransitionTime : Int
deriving DecidableEq

/-- Embedding of the fields of `v1.Pod` the controller reads.  `nspace`
stands for the metadata namespace. -/
structure Pod where
  name : String
  nspace : String
  nodeName : String
  phase : String
  conditions : List PodCond
  ownerRefs : List OwnerRef
  creationTimestamp : Int
deriving DecidableEq

/-- Embedding of the fields of `v1.Node` that `makeLabels` reads. -/
structure MNode where
  labels : List (String × String)
deriving DecidableEq

/-- The mutable state of the pod metrics controller: the pending-pod set, the
metric store keyed by namespaced name, and the observed startup durations the
summary has recorded. -/
structure MetricsState where
  pendingPods : List String
  metricStore : List (String × List (String × String))
  observedStartups : List Int
deriving DecidableEq

/-- Embedding of `client.Result{}` / `reconcile.Result{}`: no requeue. -/
structure ReconcileResult where
  requeue : Bool
  requeueAfterNanos : Int
deriving DecidableEq

def emptyResult : ReconcileResult := ⟨false, 0⟩

/-- The `types.NamespacedName.String()` key of a pod. -/
def podKey (p : Pod) : String := p.nspace ++ "/" ++ p.name

/-- Go map read with the zero-value default `""` (`node.Labels[k]`). -/
def labelOr (n : MNode) (k : String) : String :=
  match n.labels.find? (fun p => p.1 = k) with
  | some p => p.2
  | none => ""

def strToLower (s : String) : String := String.mk (s.toList.map Char.toLower)

/-- Insert into the embedded `sets.Set[string]`: no duplicate entries. -/
def setInsert (k : String) (s : List String) : List String :=
  if k ∈ s then s else s ++ [k]

/-- Replace-or-add into the embedded metric store (`metricStore.Update`). -/
def storeUpsert (k : String) (v : List (String × String))
    (s : List (String × List (String × String))) : List (String × List (String × String)) :=
  if s.any (fun p => p.1 = k) then
    s.map (fun p => if p.1 = k then (k, v) else p)
  else s ++ [(k, v)]

/-- Embedding of `Controller.makeLabels`
(src/pkg/controllers/metrics/pod/controller.go:162-190).  The node fetched by
the inner client `Get` is passed as an `Except` parameter; it is consulted
only when the pod names a node, and a not-found outcome leaves the zero-value
node in place while any other failure aborts with the error. -/
def makeLabels (pod : Pod) (nodeGet : Except GetErr MNode) :
    Except GetErr (List (String × String)) := do
  let selflink :=
    match pod.ownerRefs with
    | [] => ""
    | ref :: _ =>
      "/apis/" ++ ref.apiVersion ++ "/namespaces/" ++ pod.nspace ++ "/"
        ++ strToLower ref.kind ++ "s/" ++ ref.name
  let node ←
    if pod.nodeName = "" then pure ⟨[]⟩
    else
      match nodeGet with
      | .ok n => pure n
      | .error e => if e.notFound then pure ⟨[]⟩ else .error e
  pure
    [("name", pod.name), ("namespace", pod.nspace), ("owner", selflink),
     ("node", pod.nodeName), ("phase", pod.phase),
     ("zone", labelOr node "topology.kubernetes.io/zone"),
     ("arch", labelOr node "kubernetes.io/arch"),
     ("capacity_type", labelOr node "karpenter.sh/capacity-type"),
     ("instance_type", labelOr node "node.kubernetes.io/instance-type"),
     ("provisioner", labelOr node "karpenter.sh/provisioner-name"),
     ("nodepool", labelOr node "karpenter.sh/nodepool")]

/-- Embedding of `Controller.recordPodStartupMetric`
(src/pkg/controllers/metrics/pod/controller.go:146-159): a pending pod joins
the pending set; a formerly-pending pod with a Ready condition records its
startup duration and leaves the set. -/
def recordPodStartupMetric (pod : Pod) (st : MetricsState) : MetricsState :=
  let key := podKey pod
  if pod.phase = "Pending" then
    { st with pendingPods := setInsert key st.pendingPods }
  else
    match pod.conditions.find? (fun c => c.condType = "Ready") with
    | some cond =>
      if key ∈ st.pendingPods then
        { st with
            observedStartups :=
              st.observedStartups ++ [cond.lastTransitionTime - pod.creationTimestamp],
            pendingPods := st.pendingPods.filter (fun k => k ≠ key) }
      else st
    | none => st

/-- Embedding of `Controller.Reconcile`
(src/pkg/controllers/metrics/pod/controller.go:121-144).  The client `Get`
outcomes for the pod and for its node are passed as `Except` parameters;
`req` is the request's namespaced-name string. -/
def Reconcile (st : MetricsState) (req : String)
    (podGet : Except GetErr Pod) (nodeGet : Except GetErr MNode) :
    MetricsState × ReconcileResult × Option GetErr :=
  match podGet with
  | .error e =>
    if e.notFound then
      ({ st with
          pendingPods := st.pendingPods.filter (fun k => k ≠ req),
          metricStore := st.metricStore.filter (fun p => p.1 ≠ req) },
        emptyResult, none)
    else (st, emptyResult, some e)
  | .ok pod =>
    match makeLabels pod nodeGet with
    | .error e => (st, emptyResult, some e)
    | .ok labels =>
      let st1 := { st with metricStore := storeUpsert (podKey pod) labels st.metricStore }
      (recordPodStartupMetric pod st1, emptyResult, none)

/-- Association lookup into the embedded metric store. -/
def storeLookup (s : List (String × List (String × String))) (k : String) :
    Option (List (String × String)) :=
  match s with
  | [] => none
  | p :: rest => if p.1 = k then some p.2 else storeLookup rest k

theorem storeLookup_filter_self (s : List (String × List (String × String)))
    (req : String) : storeLookup (s.filter (fun p => p.1 ≠ req)) req = none := by
  induction s with
  | nil => rfl
  | cons p rest ih =>
    by_cases hp : p.1 = req
    · rw [List.filter_cons_of_neg (by simp [hp])]
      exact ih
    · rw [List.filter_cons_of_pos (by simp [hp])]
      simp only [storeLookup]
      rw [if_neg hp]
      exact ih

theorem storeLookup_filter_other (s : List (String × List (String × String)))
    (req k : String) (hk : k ≠ req) :
    storeLookup (s.filter (fun p => p.1 ≠ req)) k = storeLookup s k := by
  induction s with
  | nil => rfl
  | cons p rest ih =>
    by_cases hp : p.1 = req
    · have hpk : p.1 ≠ k := by
        rw [hp]
        exact fun h => hk h.symm
      rw [List.filter_cons_of_neg (by simp [hp])]
      simp only [storeLookup]
      rw [if_neg hpk, ih]
    · rw [List.filter_cons_of_pos (by simp [hp])]
      simp only [storeLookup]
      by_cases hpk : p.1 = k
      · rw [if_pos hpk, if_pos hpk]
      · rw [if_neg hpk, if_neg hpk]
        exact ih

theorem mem_filter_ne (l : List String) (req k : String) :
    k ∈ l.filter (fun x => x ≠ req) ↔ (k ∈ l ∧ k ≠ req) := by
  simp [List.mem_filter]

/-- Claim C10: when the pod `Get` comes back not-found, `Reconcile` drops the
pod's entry from the pending set and the metric store (leaving all other
entries alone) and reports success with no error and no requeue; any other
`Get` failure is returned as the error with the state untouched. -/
theorem podMetrics_reconcile_spec (st : MetricsState) (req : String)
    (nodeGet : Except GetErr MNode) :
    (∀ e : GetErr, e.notFound = true →
      (Reconcile st req (.error e) nodeGet).2.2 = none ∧
      (Reconcile st req (.error e) nodeGet).2.1 = emptyResult ∧
      req ∉ (Reconcile st req (.error e) nodeGet).1.pendingPods ∧
      storeLookup (Reconcile st req (.error e) nodeGet).1.metricStore req = none ∧
      (∀ k, k ≠ req →
        ((k ∈ (Reconcile st req (.error e) nodeGet).1.pendingPods ↔ k ∈ st.pendingPods) ∧
         storeLookup (Reconcile st req (.error e) nodeGet).1.metricStore k =
           storeLookup st.metricStore k)) ∧
      (Reconcile st req (.error e) nodeGet).1.observedStartups = st.observedStartups) ∧
    (∀ e : GetErr, e.notFound = false →
      Reconcile st req (.error e) nodeGet = (st, emptyResult, some e)) := by
  constructor
  · intro e he
    have hR : Reconcile st req (.error e) nodeGet =
        ({ st with
            pendingPods := st.pendingPods.filter (fun k => k ≠ req),
            metricStore := st.metricStore.filter (fun p => p.1 ≠ req) },
          emptyResult, none) := by
      simp [Reconcile, he]
    rw [hR]
    refine ⟨rfl, rfl, ?_, ?_, ?_, rfl⟩
    · intro hmem
      exact ((mem_filter_ne st.pendingPods req req).mp hmem).2 rfl
    · exact storeLookup_filter_self st.metricStore req
    · intro k hk
      exact ⟨(mem_filter_ne st.pendingPods req k).trans (and_iff_left hk),
        storeLookup_filter_other st.metricStore req k hk⟩
  · intro e he
    simp [Reconcile, he]

/-! ## Disruption engine model (claims C1, C2, C7)

The disruption engine and queue (pkg/controllers/disruption) are not under
src/ — only their tests are — so the definitions below are modelled from the
specification (§4.6 Disruption Engine, §4.7 Disruption Queue) and checked for
consistency with the behaviours the tests in
src/pkg/controllers/disruption/drift_test.go assert. -/

/-- Modelled from the spec: the per-pod datum candidate eligibility reads —
whether the pod carries the do-not-disrupt annotation. -/
structure DriftPod where
  doNotDisrupt : Bool
deriving DecidableEq

/-- Modelled from the spec: the StateNode fields the Disruption Engine
consults — initialization, deletion mark, the node's own do-not-disrupt
annotation, its pods, the per-method signals (drifted / expired / empty /
consolidatable), the pool budget, and the disruption (cordon) taint. -/
structure StateNode where
  name : String
  initialized : Bool
  markedForDeletion : Bool
  nodeDoNotDisrupt : Bool
  pods : List DriftPod
  drifted : Bool
  expired : Bool
  emptyEligible : Bool
  consolidatable : Bool
  withinBudget : Bool
  disruptionTainted : Bool
deriving DecidableEq

/-- Modelled from the spec: candidate eligibility, common to every method —
"node is Initialized; is not already marked for deletion; has no pod bearing
the do-not-disrupt annotation; node itself has no do-not-disrupt annotation;
respects NodePool disruption budgets". -/
def eligibleCandidate (n : StateNode) : Bool :=
  n.initialized && !n.markedForDeletion && !n.nodeDoNotDisrupt
    && n.pods.all (fun p => !p.doNotDisrupt) && n.withinBudget

/-- A node the spec protects from disruption: it carries the do-not-disrupt
annotation or hosts a pod that does. -/
def protectedNode (n : StateNode) : Prop :=
  n.nodeDoNotDisrupt = true ∨ ∃ p ∈ n.pods, p.doNotDisrupt = true

instance (n : StateNode) : Decidable (protectedNode n) := by
  unfold protectedNode
  infer_instance

/-- Modelled from the spec: whether any disruption method (expiration, drift
— gated by the Drift feature gate —, emptiness, consolidation) selects the
node. -/
def disruptionReasons (gateDrift : Bool) (n : StateNode) : Bool :=
  n.expired || (gateDrift && n.drifted) || n.emptyEligible || n.consolidatable

/-- Modelled from the spec: a disruption command — `Delete | Replace{old,
new}`. -/
inductive Command where
  | delete (old : String)
  | replace (old : String) (newName : String)
deriving DecidableEq

/-- The old node a command disrupts. -/
def Command.target : Command → String
  | .delete o => o
  | .replace o _ => o

def replacementName (old : String) : String := "replacement-" ++ old

/-- Modelled from the spec: the command the engine issues for a selected
candidate — an empty node is deleted, a non-empty one is replaced. -/
def commandFor (n : StateNode) : Command :=
  if n.pods.isEmpty then .delete n.name else .replace n.name (replacementName n.name)

/-- Modelled from the spec: one reconcile pass of the Disruption Engine —
the commands issued for the eligible candidates the methods select. -/
def disruptionPass (gateDrift : Bool) (ns : List StateNode) : List Command :=
  (ns.filter (fun n => eligibleCandidate n && disruptionReasons gateDrift n)).map commandFor

/-- The replacement node-claim a Replace command creates. -/
def freshNode (name : String) : StateNode :=
  ⟨name, true, false, false, [], false, false, false, false, true, false⟩

/-- Clear the disruption taint and deletion mark of the named node
(the queue's untaint step). -/
def untaintOld (old : String) (ns : List StateNode) : List StateNode :=
  ns.map (fun n =>
    if n.name = old then { n with disruptionTainted := false, markedForDeletion := false } else n)

/-- Modelled from the spec (§4.7): processing of a Replace command — (a)
mark and cordon the old node; (b) create the replacement and wait for it to
reach Initialized; (c) on success delete the old node-claim; if the creation
fails or the wait times out, remove the attempted replacement, untaint the
old node and drop the command.  The create and initialization outcomes enter
as parameters. -/
def processReplace (createOK initializedOK : Bool) (ns : List StateNode)
    (old newName : String) : List StateNode :=
  let marked := ns.map (fun n =>
    if n.name = old then { n with markedForDeletion := true, disruptionTainted := true } else n)
  if createOK && initializedOK then
    (marked ++ [freshNode newName]).filter (fun n => n.name ≠ old)
  else
    untaintOld old marked

/-- Modelled from the spec: execution of one command by the Disruption
Queue. -/
def applyCommand (createOK initializedOK : Bool) (ns : List StateNode) :
    Command → List StateNode
  | .delete old => ns.filter (fun n => n.name ≠ old)
  | .replace old newName => processReplace createOK initializedOK ns old newName

/-- Modelled from the spec: a full disruption tick — every command of the
pass executed by the queue. -/
def executePass (gateDrift createOK initializedOK : Bool) (ns : List StateNode) :
    List StateNode :=
  (disruptionPass gateDrift ns).foldl (applyCommand createOK initializedOK) ns

theorem protected_not_eligible (n : StateNode) (h : protectedNode n) :
    eligibleCandidate n = false := by
  rcases h with h | ⟨p, hp, hdnd⟩
  · simp [eligibleCandidate, h]
  · have hall : n.pods.all (fun p => !p.doNotDisrupt) = false := by
      rw [List.all_eq_false]
      exact ⟨p, hp, by simp [hdnd]⟩
    simp [eligibleCandidate, hall]

theorem commandFor_target (n : StateNode) : (commandFor n).target = n.name := by
  by_cases h : n.pods.isEmpty
  · simp [commandFor, h, Command.target]
  · simp [commandFor, h, Command.target]

theorem pass_target_ne (gateDrift : Bool) (ns : List StateNode) (n : StateNode)
    (hmem : n ∈ ns) (hnodup : (ns.map (fun m => m.name)).Nodup)
    (hfalse : (eligibleCandidate n && disruptionReasons gateDrift n) = false) :
    ∀ c ∈ disruptionPass gateDrift ns, c.target ≠ n.name := by
  intro c hc
  obtain ⟨m, hmf, rfl⟩ := List.mem_map.mp hc
  have hm := List.mem_filter.mp hmf
  rw [commandFor_target]
  intro hname
  have hmn : m = n := List.inj_on_of_nodup_map hnodup hm.1 hmem hname
  rw [hmn] at hm
  rw [hm.2] at hfalse
  exact absurd hfalse (by decide)

theorem mem_after_apply (createOK initializedOK : Bool) (c : Command)
    (acc : List StateNode) (n : StateNode) (hn : n ∈ acc)
    (hc : c.target ≠ n.name) : n ∈ applyCommand createOK initializedOK acc c := by
  cases c with
  | delete old =>
    have hne : n.name ≠ old := fun h => hc h.symm
    exact List.mem_filter.mpr ⟨hn, by simpa using hne⟩
  | replace old newName =>
    have hne : ¬ n.name = old := fun h => hc h.symm
    have hmark : n ∈ acc.map (fun m =>
        if m.name = old then { m with markedForDeletion := true, disruptionTainted := true }
        else m) :=
      List.mem_map.mpr ⟨n, hn, by rw [if_neg hne]⟩
    simp only [applyCommand, processReplace]
    by_cases hok : (createOK && initializedOK) = true
    · rw [if_pos hok]
      exact List.mem_filter.mpr ⟨List.mem_append_left _ hmark, by simpa using hne⟩
    · rw [if_neg hok]
      exact List.mem_map.mpr ⟨n, hmark, by rw [if_neg hne]⟩

theorem mem_after_foldl (createOK initializedOK : Bool) (cs : List Command)
    (acc : List StateNode) (n : StateNode) (hn : n ∈ acc)
    (hcs : ∀ c ∈ cs, c.target ≠ n.name) :
    n ∈ cs.foldl (applyCommand createOK initializedOK) acc := by
  induction cs generalizing acc with
  | nil => exact hn
  | cons c rest ih =>
    exact ih (applyCommand createOK initializedOK acc c)
      (mem_after_apply createOK initializedOK c acc n hn (hcs c (List.mem_cons_self _ _)))
      (fun c' hc' => hcs c' (List.mem_cons_of_mem _ hc'))

theorem pass_empty_of_all_false (gateDrift : Bool) (ns : List StateNode)
    (h : ∀ m ∈ ns, (eligibleCandidate m && disruptionReasons gateDrift m) = false) :
    disruptionPass gateDrift ns = [] := by
  unfold disruptionPass
  rw [List.filter_eq_nil_iff.mpr (fun m hm => by simp [h m hm])]
  rfl

/-- Claim C1: a node carrying the do-not-disrupt annotation, or hosting a
pod that does, is never selected by a disruption pass — no command targets
it, it survives execution of the pass, and a cluster of only such nodes is
left entirely unchanged. -/
theorem doNotDisrupt_never_selected (gateDrift createOK initializedOK : Bool)
    (ns : List StateNode) (n : StateNode) (hmem : n ∈ ns)
    (hnodup : (ns.map (fun m => m.name)).Nodup) (hprot : protectedNode n) :
    (∀ c ∈ disruptionPass gateDrift ns, c.target ≠ n.name) ∧
    n ∈ executePass gateDrift createOK initializedOK ns ∧
    ((∀ m ∈ ns, protectedNode m) →
      executePass gateDrift createOK initializedOK ns = ns) := by
  have hfalse : (eligibleCandidate n && disruptionReasons gateDrift n) = false := by
    rw [protected_not_eligible n hprot]
    rfl
  have htgt := pass_target_ne gateDrift ns n hmem hnodup hfalse
  refine ⟨htgt, ?_, ?_⟩
  · exact mem_after_foldl createOK initializedOK _ ns n hmem htgt
  · intro hall
    unfold executePass
    rw [pass_empty_of_all_false gateDrift ns (fun m hm => by
      rw [protected_not_eligible m (hall m hm)]
      rfl)]
    rfl

/-- A concrete protected node: annotated do-not-disrupt, otherwise an
eligible drifted candidate. -/
def protNode : StateNode :=
  ⟨"node-1", true, false, true, [⟨false⟩], true, false, false, false, true, false⟩

/-- Witness for claim C1: with one annotated drifted node, the pass issues
nothing for it and the cluster is unchanged. -/
theorem doNotDisrupt_never_selected_witness :
    protNode ∈ [protNode] ∧ protectedNode protNode ∧
    ((∀ c ∈ disruptionPass true [protNode], c.target ≠ protNode.name) ∧
      protNode ∈ executePass true true true [protNode] ∧
      ((∀ m ∈ [protNode], protectedNode m) →
        executePass true true true [protNode] = [protNode])) := by
  refine ⟨List.mem_cons_self _ _, by decide, ?_⟩
  exact doNotDisrupt_never_selected true true true [protNode] protNode
    (List.mem_cons_self _ _) (by decide) (by decide)

theorem map_name_of_preserving (f : StateNode → StateNode)
    (hf : ∀ n, (f n).name = n.name) (ns : List StateNode) :
    (ns.map f).map (fun n => n.name) = ns.map (fun n => n.name) := by
  induction ns with
  | nil => rfl
  | cons n rest ih => simp [hf, ih]

/-- Claim C2: when a Replace command's replacement creation fails or its
initialization wait times out, the queue restores the previous state — the
claim set (by name) is exactly what it was, the attempted replacement is
gone, the old claim still exists, and the old node is untainted and
unmarked. -/
theorem replace_failure_restores (createOK initializedOK : Bool)
    (ns : List StateNode) (old newName : String)
    (hfresh : newName ∉ ns.map (fun n => n.name))
    (hfail : createOK = false ∨ initializedOK = false) :
    ((processReplace createOK initializedOK ns old newName).map (fun n => n.name) =
      ns.map (fun n => n.name)) ∧
    (newName ∉ (processReplace createOK initializedOK ns old newName).map (fun n => n.name)) ∧
    (old ∈ ns.map (fun n => n.name) →
      old ∈ (processReplace createOK initializedOK ns old newName).map (fun n => n.name)) ∧
    (∀ n ∈ processReplace createOK initializedOK ns old newName, n.name = old →
      n.disruptionTainted = false ∧ n.markedForDeletion = false) := by
  have hok : (createOK && initializedOK) = false := by
    rcases hfail with h | h <;> simp [h]
  have hres : processReplace createOK initializedOK ns old newName =
      untaintOld old (ns.map (fun n =>
        if n.name = old then { n with markedForDeletion := true, disruptionTainted := true }
        else n)) := by
    unfold processReplace
    rw [hok]
    rfl
  have hnames : (processReplace createOK initializedOK ns old newName).map (fun n => n.name) =
      ns.map (fun n => n.name) := by
    rw [hres]
    unfold untaintOld
    rw [map_name_of_preserving _ (fun n => by by_cases h : n.name = old <;> simp [h]) _,
      map_name_of_preserving _ (fun n => by by_cases h : n.name = old <;> simp [h]) ns]
  refine ⟨hnames, ?_, ?_, ?_⟩
  · rw [hnames]
    exact hfresh
  · intro h
    rw [hnames]
    exact h
  · intro n hn hname
    rw [hres] at hn
    obtain ⟨m, _, rfl⟩ := List.mem_map.mp hn
    by_cases hm : m.name = old
    · rw [if_pos hm]
      exact ⟨rfl, rfl⟩
    · rw [if_neg hm] at hname ⊢
      exact absurd hname hm

/-- A concrete tainted candidate for the replacement-failure witness. -/
def taintedNode : StateNode :=
  ⟨"node-2", true, true, false, [⟨false⟩], true, false, false, false, true, true⟩

/-- Witness for claim C2: a failed replacement of `taintedNode` leaves the
claim set unchanged, drops the replacement, and untaints the old node. -/
theorem replace_failure_restores_witness :
    ("replacement-node-2" ∉ [taintedNode].map (fun n => n.name)) ∧
    (((processReplace false true [taintedNode] "node-2" "replacement-node-2").map
        (fun n => n.name) = [taintedNode].map (fun n => n.name)) ∧
      ("replacement-node-2" ∉
        (processReplace false true [taintedNode] "node-2" "replacement-node-2").map
          (fun n => n.name)) ∧
      ("node-2" ∈ [taintedNode].map (fun n => n.name) →
        "node-2" ∈ (processReplace false true [taintedNode] "node-2" "replacement-node-2").map
          (fun n => n.name)) ∧
      (∀ n ∈ processReplace false true [taintedNode] "node-2" "replacement-node-2",
        n.name = "node-2" →
        n.disruptionTainted = false ∧ n.markedForDeletion = false)) := by
  refine ⟨by decide, ?_⟩
  exact replace_failure_restores false true [taintedNode] "node-2" "replacement-node-2"
    (by decide) (Or.inl rfl)

/-- Claim C7: with the Drift feature gate disabled, a node-claim whose
Drifted condition is True and which no other method selects is never
targeted by a disruption pass; it survives execution, and a cluster in which
no node is expired, empty-eligible or consolidatable is left entirely
unchanged — no deletion, no replacement. -/
theorem drift_gate_disabled_ignored (createOK initializedOK : Bool)
    (ns : List StateNode) (n : StateNode) (hmem : n ∈ ns)
    (hnodup : (ns.map (fun m => m.name)).Nodup)
    (hdrift : n.drifted = true)
    (hreason : n.expired = false ∧ n.emptyEligible = false ∧ n.consolidatable = false) :
    (∀ c ∈ disruptionPass false ns, c.target ≠ n.name) ∧
    n ∈ executePass false createOK initializedOK ns ∧
    ((∀ m ∈ ns, m.expired = false ∧ m.emptyEligible = false ∧ m.consolidatable = false) →
      disruptionPass false ns = [] ∧
      executePass false createOK initializedOK ns = ns) := by
  have hfalse : (eligibleCandidate n && disruptionReasons false n) = false := by
    simp [disruptionReasons, hreason.1, hreason.2.1, hreason.2.2]
  have htgt := pass_target_ne false ns n hmem hnodup hfalse
  refine ⟨htgt, mem_after_foldl createOK initializedOK _ ns n hmem htgt, ?_⟩
  intro hall
  have hpass : disruptionPass false ns = [] :=
    pass_empty_of_all_false false ns (fun m hm => by
      simp [disruptionReasons, (hall m hm).1, (hall m hm).2.1, (hall m hm).2.2])
  refine ⟨hpass, ?_⟩
  unfold executePass
  rw [hpass]
  rfl

/-- A concrete drifted, otherwise fully eligible node. -/
def driftedNode : StateNode :=
  ⟨"node-3", true, false, false, [], true, false, false, false, true, false⟩

/-- Witness for claim C7: with the gate off, the drifted node is not
targeted and the cluster is unchanged. -/
theorem drift_gate_disabled_ignored_witness :
    driftedNode.drifted = true ∧
    ((∀ c ∈ disruptionPass false [driftedNode], c.target ≠ driftedNode.name) ∧
      driftedNode ∈ executePass false true true [driftedNode] ∧
      ((∀ m ∈ [driftedNode],
          m.expired = false ∧ m.emptyEligible = false ∧ m.consolidatable = false) →
        disruptionPass false [driftedNode] = [] ∧
        executePass false true true [driftedNode] = [driftedNode])) := by
  refine ⟨rfl, ?_⟩
  exact drift_gate_disabled_ignored true true [driftedNode] driftedNode
    (List.mem_cons_self _ _) (by decide) rfl ⟨rfl, rfl, rfl⟩

end Karpenter
